import Mathlib

/-!
Verification of the Deepway media-forensics core: the detector adapters
(visual ViT, temporal 3D CNN), the signal Fusion Engine and the result
contract, embedded from the reference implementation documented in
`CORE_MODELS_REFERENCE.md` (`visual_detector.py`, `temporal_detector.py`,
`fusion_engine.py`) over exact rational and real arithmetic.
-/

namespace Deepway

/-- Classification labels produced by the detectors. -/
inductive Classification where
  | AUTHENTIC
  | MANIPULATED
  deriving DecidableEq, Repr

/-- Confidence tiers reported by the temporal detector. -/
inductive Confidence where
  | LOW
  | MEDIUM
  | HIGH
  deriving DecidableEq, Repr

/-- Classification values representable in the response schema of the
result contract (from the API documentation: the classification field is
"AUTHENTIC|SUSPICIOUS|MANIPULATED"). -/
def schemaClassifications : List String :=
  ["AUTHENTIC", "SUSPICIOUS", "MANIPULATED"]

/-- Visual detector (ViT) risk score from visual_detector.py:
risk_score = (1.0 - prob_real) * 100.0, identical in both source branches. -/
def visual_risk_score (prob_real : ℚ) : ℚ :=
  (1 - prob_real) * 100

/-- Visual detector derived scalar fake probability for the three-class
taxonomy (Artificial / Deepfake / Real): 1 - P(real). -/
def visual_fake_probability (prob_artificial prob_deepfake prob_real : ℚ) : ℚ :=
  1 - prob_real

/-- Visual detector classification rule from visual_detector.py:
MANIPULATED when risk_score >= 50, otherwise AUTHENTIC. -/
def visual_classification (risk_score : ℚ) : Classification :=
  if risk_score ≥ 50 then .MANIPULATED else .AUTHENTIC

/-- Temporal detector derived scalar fake probability for the binary
taxonomy (REAL / FAKE): P(fake). -/
def temporal_fake_probability (prob_real prob_fake : ℚ) : ℚ :=
  prob_fake

/-- Temporal detector risk score from temporal_detector.py:
risk_score = prob_fake * 100.0. -/
def temporal_risk_score (prob_fake : ℚ) : ℚ :=
  prob_fake * 100

/-- Temporal detector classification rule from temporal_detector.py:
MANIPULATED when prob_fake > prob_real, otherwise AUTHENTIC. -/
def temporal_classification (prob_real prob_fake : ℚ) : Classification :=
  if prob_fake > prob_real then .MANIPULATED else .AUTHENTIC

/-- Temporal detector confidence levels from temporal_detector.py:
max_prob = max(prob_real, prob_fake); HIGH at >= 0.85, MEDIUM at >= 0.65,
otherwise LOW. -/
def temporal_confidence (prob_real prob_fake : ℚ) : Confidence :=
  let max_prob := max prob_real prob_fake
  if max_prob ≥ 85/100 then .HIGH
  else if max_prob ≥ 65/100 then .MEDIUM
  else .LOW

/-- Threshold classification rule of the temporal integration plan:
risk score > 50 is MANIPULATED (the plan's "FAKE"), risk score <= 50 is
AUTHENTIC. -/
def threshold_classification (risk_score : ℚ) : Classification :=
  if risk_score > 50 then .MANIPULATED else .AUTHENTIC

/-- Image-signal fusion from fusion_engine.py: visual weight 0.70, forensic
weight 0.30; a forensic probability within 0.01 of 0.5 is treated as
neutral (forensic model not loaded) and the visual score is used alone;
the returned risk score is final_score * 100.0. -/
def fuse_image_signals (visual_score forensic_score : ℚ) : ℚ :=
  let visual_weight : ℚ := 70/100
  let forensic_weight : ℚ := 30/100
  let final_score : ℚ :=
    if |forensic_score - 1/2| < 1/100 then visual_score
    else visual_score * visual_weight + forensic_score * forensic_weight
  final_score * 100

/-- Modelled from the spec: the general K-detector weighted fusion of
fusion_engine.py is not excerpted in the repository documentation (only the
two-signal image case is); following the spec, each surviving weight is
renormalized by the sum of the surviving weights and the fused fake
probability is the sum of (weight_i / sum of weights) * fake_probability_i. -/
def fusedProbability (weights probs : List ℚ) : ℚ :=
  (List.zipWith (fun w p => w / weights.sum * p) weights probs).sum

/-- Modelled from the spec: a binary detector output within epsilon 0.01 of
the uninformative prior 0.5 counts as neutral. -/
def isNeutral (p : ℚ) : Bool :=
  |p - 1/2| < 1/100

/-- Modelled from the spec: the Fusion Engine excludes neutral detectors
from the weighted combination; a signal is a (weight, fake probability)
pair. -/
def activeSignals (signals : List (ℚ × ℚ)) : List (ℚ × ℚ) :=
  signals.filter (fun s => ! isNeutral s.2)

/-- Modelled from the spec: fused fake probability of a list of (weight,
fake probability) signals, after neutral exclusion and weight
renormalization over the surviving signals. -/
def fuseSignals (signals : List (ℚ × ℚ)) : ℚ :=
  fusedProbability ((activeSignals signals).map Prod.fst)
    ((activeSignals signals).map Prod.snd)

/-- Maximum of a list of reals, as np.max over a nonempty logits array
(0 for the empty array, which the detector never passes). -/
noncomputable def npMax : List ℝ → ℝ
  | [] => 0
  | a :: t => t.foldr max a

/-- Numerically stable softmax from temporal_detector.py:
exp(logits - max(logits)) divided by its sum. -/
noncomputable def stable_softmax (logits : List ℝ) : List ℝ :=
  let exp_logits := logits.map (fun x => Real.exp (x - npMax logits))
  exp_logits.map (fun y => y / exp_logits.sum)

/-- Standard softmax: exp(logits) divided by its sum. -/
noncomputable def softmax (logits : List ℝ) : List ℝ :=
  let exp_logits := logits.map Real.exp
  exp_logits.map (fun y => y / exp_logits.sum)

/-- Claim C1 counterexample: at fused fake probability 1/2 the risk score
is exactly 50, which is not strictly greater than 50, yet the implemented
classification rule (risk_score >= 50) returns MANIPULATED where the claim
demands AUTHENTIC. -/
theorem c1_tie_counterexample :
    ¬ ((1/2 : ℚ) * 100 > 50) ∧
      visual_classification ((1/2 : ℚ) * 100) = Classification.MANIPULATED := by
  constructor
  · norm_num
  · unfold visual_classification
    rw [if_pos (by norm_num : (1/2 : ℚ) * 100 ≥ 50)]

/-- Claim C1 amended: for every fused fake probability p in [0,1] the
implemented classification is MANIPULATED exactly when the risk score
p * 100 is at least 50 (the tie at exactly 50 resolves to MANIPULATED),
and AUTHENTIC exactly when the risk score is strictly below 50; the label
is a deterministic function of the risk score alone. -/
theorem c1_threshold_amended (p : ℚ) (h0 : 0 ≤ p) (h1 : p ≤ 1) :
    (visual_classification (p * 100) = Classification.MANIPULATED ↔ 50 ≤ p * 100) ∧
      (visual_classification (p * 100) = Classification.AUTHENTIC ↔ p * 100 < 50) := by
  unfold visual_classification
  rcases le_or_lt 50 (p * 100) with h | h
  · rw [if_pos (h : p * 100 ≥ 50)]
    exact ⟨⟨fun _ => h, fun _ => rfl⟩,
      ⟨fun hc => Classification.noConfusion hc, fun hlt => absurd h (not_le.2 hlt)⟩⟩
  · rw [if_neg (not_le.2 h : ¬ p * 100 ≥ 50)]
    exact ⟨⟨fun hc => Classification.noConfusion hc, fun hle => absurd hle (not_le.2 h)⟩,
      ⟨fun _ => h, fun _ => rfl⟩⟩

/-- Claim C1 amended witness at p = 7/10 (risk score 70, MANIPULATED). -/
theorem c1_threshold_amended_witness :
    (0 : ℚ) ≤ 7/10 ∧ (7/10 : ℚ) ≤ 1 ∧
      ((visual_classification ((7/10 : ℚ) * 100) = Classification.MANIPULATED ↔
          50 ≤ (7/10 : ℚ) * 100) ∧
        (visual_classification ((7/10 : ℚ) * 100) = Classification.AUTHENTIC ↔
          (7/10 : ℚ) * 100 < 50)) :=
  ⟨by norm_num, by norm_num, c1_threshold_amended (7/10) (by norm_num) (by norm_num)⟩

/-- Claim C2 counterexample: when every detector reports the neutral value
1/2, the implemented fusion still returns the numeric risk score 50 rather
than a dedicated INCONCLUSIVE state, and the response schema's
classification field enumerates AUTHENTIC, SUSPICIOUS, MANIPULATED with no
INCONCLUSIVE value. -/
theorem c2_inconclusive_counterexample :
    fuse_image_signals (1/2) (1/2) = 50 ∧
      ¬ ("INCONCLUSIVE" ∈ schemaClassifications) := by
  constructor
  · simp only [fuse_image_signals]
    rw [if_pos (by norm_num : |(1/2 : ℚ) - 1/2| < 1/100)]
    norm_num
  · decide

/-- Claim C2 amended: a neutral forensic signal is excluded but the visual
detector is always used, so the implemented fusion returns the numeric
risk score visual * 100 even when every signal is neutral (risk 50 at full
neutrality) instead of a dedicated INCONCLUSIVE state, and the result
contract's classification field enumerates AUTHENTIC, SUSPICIOUS and
MANIPULATED only, with no INCONCLUSIVE value. -/
theorem c2_no_inconclusive_amended (v f : ℚ) (hf : |f - 1/2| < 1/100) :
    fuse_image_signals v f = v * 100 ∧
      ¬ ("INCONCLUSIVE" ∈ schemaClassifications) := by
  refine ⟨?_, by decide⟩
  simp only [fuse_image_signals]
  rw [if_pos hf]

/-- Claim C2 amended witness: fully neutral inputs v = f = 1/2 give risk
score 50. -/
theorem c2_no_inconclusive_amended_witness :
    |(1/2 : ℚ) - 1/2| < 1/100 ∧
      (fuse_image_signals (1/2) (1/2) = (1/2 : ℚ) * 100 ∧
        ¬ ("INCONCLUSIVE" ∈ schemaClassifications)) :=
  ⟨by norm_num, c2_no_inconclusive_amended (1/2) (1/2) (by norm_num)⟩

/-- Claim C6: for every fused fake probability p in [0,1], the confidence
tier computed by the implemented rule on the pair (1-p, p) is HIGH exactly
when max(p, 1-p) >= 0.85, MEDIUM exactly when 0.65 <= max(p, 1-p) < 0.85,
and LOW otherwise. -/
theorem c6_confidence_tiers (p : ℚ) (h0 : 0 ≤ p) (h1 : p ≤ 1) :
    (temporal_confidence (1 - p) p = Confidence.HIGH ↔
        85/100 ≤ max p (1 - p)) ∧
      (temporal_confidence (1 - p) p = Confidence.MEDIUM ↔
        65/100 ≤ max p (1 - p) ∧ max p (1 - p) < 85/100) ∧
      (temporal_confidence (1 - p) p = Confidence.LOW ↔
        max p (1 - p) < 65/100) := by
  have hmc : max p (1 - p) = max (1 - p) p := max_comm _ _
  rw [hmc]
  simp only [temporal_confidence]
  by_cases hH : max (1 - p) p ≥ 85/100
  · rw [if_pos hH]
    exact ⟨⟨fun _ => hH, fun _ => rfl⟩,
      ⟨fun hc => Confidence.noConfusion hc, fun hc => absurd hH (not_le.2 hc.2)⟩,
      ⟨fun hc => Confidence.noConfusion hc,
        fun hc => absurd (le_trans (by norm_num) hH) (not_le.2 hc)⟩⟩
  · rw [if_neg hH]
    by_cases hM : max (1 - p) p ≥ 65/100
    · rw [if_pos hM]
      exact ⟨⟨fun hc => Confidence.noConfusion hc, fun hle => absurd hle hH⟩,
        ⟨fun _ => ⟨hM, lt_of_not_le hH⟩, fun _ => rfl⟩,
        ⟨fun hc => Confidence.noConfusion hc, fun hc => absurd hM (not_le.2 hc)⟩⟩
    · rw [if_neg hM]
      exact ⟨⟨fun hc => Confidence.noConfusion hc, fun hle => absurd hle hH⟩,
        ⟨fun hc => Confidence.noConfusion hc, fun hc => absurd hc.1 hM⟩,
        ⟨fun _ => lt_of_not_le hM, fun _ => rfl⟩⟩

/-- Claim C6 witness at p = 9/10: max(p, 1-p) = 9/10 >= 0.85, tier HIGH. -/
theorem c6_confidence_tiers_witness :
    (0 : ℚ) ≤ 9/10 ∧ (9/10 : ℚ) ≤ 1 ∧
      ((temporal_confidence (1 - 9/10) (9/10) = Confidence.HIGH ↔
          85/100 ≤ max (9/10 : ℚ) (1 - 9/10)) ∧
        (temporal_confidence (1 - 9/10) (9/10) = Confidence.MEDIUM ↔
          65/100 ≤ max (9/10 : ℚ) (1 - 9/10) ∧ max (9/10 : ℚ) (1 - 9/10) < 85/100) ∧
        (temporal_confidence (1 - 9/10) (9/10) = Confidence.LOW ↔
          max (9/10 : ℚ) (1 - 9/10) < 65/100)) :=
  ⟨by norm_num, by norm_num, c6_confidence_tiers (9/10) (by norm_num) (by norm_num)⟩

/-- Claim C7: the visual (three-class) adapter collapses to the fake
probability 1 - P(real), which equals P(artificial) + P(deepfake) whenever
the class probabilities sum to 1; the temporal (binary) adapter collapses
to P(fake); both derivations are fixed deterministic functions of the
input distributions. -/
theorem c7_collapse_rules (a d r pr pf : ℚ) (hsum : a + d + r = 1) :
    visual_fake_probability a d r = 1 - r ∧
      visual_fake_probability a d r = a + d ∧
      temporal_fake_probability pr pf = pf := by
  refine ⟨rfl, ?_, rfl⟩
  unfold visual_fake_probability
  linarith

/-- Claim C7 witness at the documented output distribution
(Artificial 0.12, Deepfake 0.70, Real 0.18) and the documented temporal
pair (0.1477, 0.8523). -/
theorem c7_collapse_rules_witness :
    (12/100 : ℚ) + 70/100 + 18/100 = 1 ∧
      (visual_fake_probability (12/100) (70/100) (18/100) = 1 - 18/100 ∧
        visual_fake_probability (12/100) (70/100) (18/100) = 12/100 + 70/100 ∧
        temporal_fake_probability (1477/10000) (8523/10000) = 8523/10000) :=
  ⟨by norm_num,
    c7_collapse_rules (12/100) (70/100) (18/100) (1477/10000) (8523/10000) (by norm_num)⟩

/-- Claim C9: whenever the binary class probabilities sum to 1, the
implemented temporal rule (MANIPULATED iff prob_fake > prob_real) agrees
with the planned threshold rule (MANIPULATED iff the risk score
prob_fake * 100 exceeds 50) on every input, including the tie. -/
theorem c9_decision_equivalence (prob_real prob_fake : ℚ)
    (hsum : prob_real + prob_fake = 1) :
    temporal_classification prob_real prob_fake =
      threshold_classification (temporal_risk_score prob_fake) := by
  unfold temporal_classification threshold_classification temporal_risk_score
  split_ifs with h1 h2
  · rfl
  · exact absurd (by linarith : prob_fake * 100 > 50) h2
  · exact absurd (by linarith : prob_fake > prob_real) h1
  · rfl

/-- Claim C9 witness at the documented temporal pair (0.1477, 0.8523). -/
theorem c9_decision_equivalence_witness :
    (1477/10000 : ℚ) + 8523/10000 = 1 ∧
      temporal_classification (1477/10000) (8523/10000) =
        threshold_classification (temporal_risk_score (8523/10000)) :=
  ⟨by norm_num, c9_decision_equivalence (1477/10000) (8523/10000) (by norm_num)⟩

/-- A constant factor multiplies through a list sum. -/
theorem sum_map_const_mul (c : ℚ) (l : List ℚ) :
    (l.map (fun w => c * w)).sum = c * l.sum := by
  induction l with
  | nil => simp
  | cons a t ih => simp [ih, mul_add]

/-- Bounds for a renormalized weighted combination: with non-negative
weights, probabilities in [0,1] and a non-negative divisor S, the sum of
the w / S * p terms lies between 0 and (sum of the weights) / S. -/
theorem zipWith_div_sum_bounds (S : ℚ) (hS : 0 ≤ S) :
    ∀ (ws ps : List ℚ), (∀ w ∈ ws, 0 ≤ w) → (∀ p ∈ ps, 0 ≤ p ∧ p ≤ 1) →
      0 ≤ (List.zipWith (fun w p => w / S * p) ws ps).sum ∧
        (List.zipWith (fun w p => w / S * p) ws ps).sum ≤ ws.sum / S := by
  intro ws
  induction ws with
  | nil => intro ps _ _; simp
  | cons w ws ih =>
    intro ps hw hp
    cases ps with
    | nil =>
      simp only [List.zipWith_nil_right, List.sum_nil, List.sum_cons]
      refine ⟨le_refl 0, div_nonneg ?_ hS⟩
      have h1 : 0 ≤ w := hw w (List.mem_cons_self w ws)
      have h2 : 0 ≤ ws.sum :=
        List.sum_nonneg (fun x hx => hw x (List.mem_cons_of_mem w hx))
      linarith
    | cons p ps =>
      have hw0 : 0 ≤ w := hw w (List.mem_cons_self w ws)
      obtain ⟨hp0, hp1⟩ := hp p (List.mem_cons_self p ps)
      have hrec := ih ps (fun x hx => hw x (List.mem_cons_of_mem w hx))
        (fun x hx => hp x (List.mem_cons_of_mem p hx))
      have hterm0 : 0 ≤ w / S * p := mul_nonneg (div_nonneg hw0 hS) hp0
      have hterm1 : w / S * p ≤ w / S :=
        mul_le_of_le_one_right (div_nonneg hw0 hS) hp1
      simp only [List.zipWith_cons_cons, List.sum_cons]
      constructor
      · linarith [hrec.1]
      · rw [add_div]
        linarith [hrec.2]

/-- Claim C3: a detector reporting within the neutral epsilon 0.01 of 0.5
is excluded from fusion: the implemented image fusion then returns the
visual-only risk score visual * 100, and in the general engine fusing a
signal list containing a neutral detector equals fusing the same list
with that detector omitted entirely. -/
theorem c3_neutral_exclusion (v f : ℚ) (s : ℚ × ℚ) (l₁ l₂ : List (ℚ × ℚ))
    (hf : |f - 1/2| < 1/100) (hs : isNeutral s.2 = true) :
    fuse_image_signals v f = v * 100 ∧
      fuseSignals (l₁ ++ s :: l₂) = fuseSignals (l₁ ++ l₂) := by
  constructor
  · simp only [fuse_image_signals]
    rw [if_pos hf]
  · unfold fuseSignals activeSignals
    rw [List.filter_append, List.filter_append, List.filter_cons]
    simp [hs]

/-- Claim C3 witness: a neutral forensic signal 1/2 next to a visual
signal of weight 0.7 and probability 0.9. -/
theorem c3_neutral_exclusion_witness :
    |(1/2 : ℚ) - 1/2| < 1/100 ∧ isNeutral ((3/10 : ℚ), (1/2 : ℚ)).2 = true ∧
      (fuse_image_signals (9/10) (1/2) = (9/10 : ℚ) * 100 ∧
        fuseSignals ([((7/10 : ℚ), (9/10 : ℚ))] ++ ((3/10 : ℚ), (1/2 : ℚ)) :: []) =
          fuseSignals ([((7/10 : ℚ), (9/10 : ℚ))] ++ [])) :=
  ⟨by norm_num, by simp only [isNeutral, decide_eq_true_eq]; norm_num,
    c3_neutral_exclusion (9/10) (1/2) ((3/10 : ℚ), (1/2 : ℚ))
      [((7/10 : ℚ), (9/10 : ℚ))] [] (by norm_num)
      (by simp only [isNeutral, decide_eq_true_eq]; norm_num)⟩

/-- Claim C4: scaling every active weight by a positive constant c leaves
the fused probability unchanged: each renormalized weight
w / sum(weights) is invariant under the common scaling. -/
theorem c4_renormalization_invariance (c : ℚ) (weights probs : List ℚ)
    (hc : 0 < c) :
    fusedProbability (weights.map (fun w => c * w)) probs =
      fusedProbability weights probs := by
  unfold fusedProbability
  rw [sum_map_const_mul, List.zipWith_map_left]
  simp only [mul_div_mul_left _ _ (ne_of_gt hc)]

/-- Claim C4 witness: scaling the weights (0.7, 0.3) by c = 2 leaves the
fused probability of the inputs (0.9, 0.2) unchanged. -/
theorem c4_renormalization_invariance_witness :
    (0 : ℚ) < 2 ∧
      fusedProbability (([7/10, 3/10] : List ℚ).map (fun w => 2 * w)) [9/10, 2/10] =
        fusedProbability [7/10, 3/10] [9/10, 2/10] :=
  ⟨by norm_num,
    c4_renormalization_invariance 2 [7/10, 3/10] [9/10, 2/10] (by norm_num)⟩

/-- Claim C5: with non-negative weights and fake probabilities in [0,1],
the fused probability lies in [0,1] and the derived risk score
fused * 100 lies in [0,100]; the implemented image fusion's risk score
likewise lies in [0,100] for probabilities in [0,1], so the [0,100] clamp
is the identity on these outputs. -/
theorem c5_range_invariants (ws ps : List ℚ) (v f : ℚ)
    (hw : ∀ w ∈ ws, 0 ≤ w) (hp : ∀ p ∈ ps, 0 ≤ p ∧ p ≤ 1)
    (hv0 : 0 ≤ v) (hv1 : v ≤ 1) (hf0 : 0 ≤ f) (hf1 : f ≤ 1) :
    (0 ≤ fusedProbability ws ps ∧ fusedProbability ws ps ≤ 1) ∧
      (0 ≤ fusedProbability ws ps * 100 ∧ fusedProbability ws ps * 100 ≤ 100) ∧
      (0 ≤ fuse_image_signals v f ∧ fuse_image_signals v f ≤ 100) := by
  have hS : 0 ≤ ws.sum := List.sum_nonneg hw
  have hb := zipWith_div_sum_bounds ws.sum hS ws ps hw hp
  have hub : ws.sum / ws.sum ≤ 1 := by
    rcases eq_or_ne ws.sum 0 with h | h
    · simp [h]
    · rw [div_self h]
  have h01 : 0 ≤ fusedProbability ws ps ∧ fusedProbability ws ps ≤ 1 := by
    unfold fusedProbability
    exact ⟨hb.1, le_trans hb.2 hub⟩
  have himg : 0 ≤ fuse_image_signals v f ∧ fuse_image_signals v f ≤ 100 := by
    simp only [fuse_image_signals]
    split_ifs with h
    · constructor <;> nlinarith
    · constructor <;> nlinarith
  exact ⟨h01, ⟨by nlinarith [h01.1], by nlinarith [h01.2]⟩, himg⟩

/-- Claim C5 witness at weights (0.7, 0.3), probabilities (0.9, 0.2) and
image inputs visual 0.9, forensic 0.2. -/
theorem c5_range_invariants_witness :
    (0 ≤ fusedProbability [7/10, 3/10] [9/10, 2/10] ∧
        fusedProbability [7/10, 3/10] [9/10, 2/10] ≤ 1) ∧
      (0 ≤ fusedProbability [7/10, 3/10] [9/10, 2/10] * 100 ∧
        fusedProbability [7/10, 3/10] [9/10, 2/10] * 100 ≤ 100) ∧
      (0 ≤ fuse_image_signals (9/10) (2/10) ∧
        fuse_image_signals (9/10) (2/10) ≤ 100) :=
  c5_range_invariants [7/10, 3/10] [9/10, 2/10] (9/10) (2/10)
    (by
      intro w hwm
      simp only [List.mem_cons, List.not_mem_nil, or_false] at hwm
      rcases hwm with rfl | rfl <;> norm_num)
    (by
      intro p hpm
      simp only [List.mem_cons, List.not_mem_nil, or_false] at hpm
      rcases hpm with rfl | rfl <;> norm_num)
    (by norm_num) (by norm_num) (by norm_num) (by norm_num)

/-- Claim C8: fusing the identical detector results under the identical
policy twice yields identical results; the embedded fusion functions read
only their arguments and the fixed policy constants, so equal inputs give
equal outputs. -/
theorem c8_two_run_determinism (v₁ f₁ v₂ f₂ : ℚ) (s₁ s₂ : List (ℚ × ℚ))
    (hv : v₁ = v₂) (hf : f₁ = f₂) (hs : s₁ = s₂) :
    fuse_image_signals v₁ f₁ = fuse_image_signals v₂ f₂ ∧
      fuseSignals s₁ = fuseSignals s₂ := by
  subst hv; subst hf; subst hs
  exact ⟨rfl, rfl⟩

/-- Claim C8 witness at visual 0.9, forensic 0.2 and the singleton signal
list of weight 0.7 and probability 0.9. -/
theorem c8_two_run_determinism_witness :
    (9/10 : ℚ) = 9/10 ∧ (2/10 : ℚ) = 2/10 ∧
      ([((7/10 : ℚ), (9/10 : ℚ))] : List (ℚ × ℚ)) = [((7/10 : ℚ), (9/10 : ℚ))] ∧
      (fuse_image_signals (9/10) (2/10) = fuse_image_signals (9/10) (2/10) ∧
        fuseSignals [((7/10 : ℚ), (9/10 : ℚ))] = fuseSignals [((7/10 : ℚ), (9/10 : ℚ))]) :=
  ⟨rfl, rfl, rfl,
    c8_two_run_determinism (9/10) (2/10) (9/10) (2/10)
      [((7/10 : ℚ), (9/10 : ℚ))] [((7/10 : ℚ), (9/10 : ℚ))] rfl rfl rfl⟩

/-- The exponentials of a list of logits have a positive sum when the
list is nonempty. -/
theorem exp_sum_pos (l : List ℝ) (h : l ≠ []) : 0 < (l.map Real.exp).sum := by
  apply List.sum_pos
  · intro x hx
    obtain ⟨a, _, rfl⟩ := List.mem_map.1 hx
    exact Real.exp_pos a
  · simpa using h

/-- Shifting every logit by m multiplies each exponential, and hence the
sum of the exponentials, by exp (-m). -/
theorem shifted_exp_sum (l : List ℝ) (m : ℝ) :
    (l.map (fun x => Real.exp (x - m))).sum =
      (l.map Real.exp).sum * Real.exp (-m) := by
  induction l with
  | nil => simp
  | cons a t ih =>
    simp only [List.map_cons, List.sum_cons, ih, add_mul]
    congr 1
    rw [Real.exp_neg, Real.exp_sub, div_eq_mul_inv]

/-- Claim C10: for every nonempty logit vector, the numerically stable
softmax (exponentials of the max-shifted logits divided by their sum)
equals the standard softmax of the same logits in exact arithmetic, its
components all lie in [0,1], and they sum to 1. -/
theorem c10_stable_softmax_correct (l : List ℝ) (h : l ≠ []) :
    stable_softmax l = softmax l ∧
      (∀ y ∈ stable_softmax l, 0 ≤ y ∧ y ≤ 1) ∧
      (stable_softmax l).sum = 1 := by
  have hS : 0 < (l.map Real.exp).sum := exp_sum_pos l h
  have hc : (0 : ℝ) < Real.exp (-(npMax l)) := Real.exp_pos _
  have heq : stable_softmax l =
      l.map (fun x => Real.exp x / (l.map Real.exp).sum) := by
    simp only [stable_softmax]
    rw [shifted_exp_sum, List.map_map]
    have hfun : ((fun y => y / ((l.map Real.exp).sum * Real.exp (-(npMax l)))) ∘
        (fun x => Real.exp (x - npMax l))) =
        fun x => Real.exp x / (l.map Real.exp).sum := by
      funext x
      simp only [Function.comp]
      rw [show Real.exp (x - npMax l) = Real.exp x * Real.exp (-(npMax l)) by
        rw [Real.exp_neg, Real.exp_sub, div_eq_mul_inv]]
      exact mul_div_mul_right _ _ (ne_of_gt hc)
    rw [hfun]
  have hsm : softmax l =
      l.map (fun x => Real.exp x / (l.map Real.exp).sum) := by
    simp only [softmax]
    rw [List.map_map]
    rfl
  refine ⟨heq.trans hsm.symm, ?_, ?_⟩
  · intro y hy
    rw [heq] at hy
    obtain ⟨x, hx, rfl⟩ := List.mem_map.1 hy
    constructor
    · exact le_of_lt (div_pos (Real.exp_pos x) hS)
    · rw [div_le_one hS]
      exact List.single_le_sum
        (fun a ha => by
          obtain ⟨b, _, rfl⟩ := List.mem_map.1 ha
          exact (Real.exp_pos b).le)
        _ (List.mem_map_of_mem Real.exp hx)
  · rw [heq]
    simp only [div_eq_mul_inv]
    rw [List.sum_map_mul_right]
    exact mul_inv_cancel₀ (ne_of_gt hS)

/-- Claim C10 witness at the singleton logit vector [0]. -/
theorem c10_stable_softmax_correct_witness :
    ([(0 : ℝ)] ≠ []) ∧
      (stable_softmax [(0 : ℝ)] = softmax [(0 : ℝ)] ∧
        (∀ y ∈ stable_softmax [(0 : ℝ)], 0 ≤ y ∧ y ≤ 1) ∧
        (stable_softmax [(0 : ℝ)]).sum = 1) :=
  ⟨by simp, c10_stable_softmax_correct [(0 : ℝ)] (by simp)⟩

end Deepway
